import Mathlib

/-!
Verification of the Arthachitra tick-engine core (src/tick_engine) against its
natural-language specification.

The C++ code is shallowly embedded:
* `std::map<double,int>` (sorted, unique keys, ascending) is embedded as a
  strictly-ascending association list `PriceMap := List (Rat × Int)`;
  prices (`double`) become `Rat`, quantities (`int`) become `Int`.
* `OrderBook` (src/tick_engine/include/order_book.h) keeps a symbol, the two
  sides, and `last_updated_`; time points become `Int` values passed in
  explicitly (`now`) since the code reads the clock at each mutation.
* Each `std::lock_guard` critical section in the C++ is one atomic step of the
  embedding; a function that acquires the lock several times is embedded as a
  function of one book state per acquisition, so interleavings with concurrent
  mutations are expressed by giving different states to different acquisitions.
* `TickHandler` (include/tick_handler.h, src/redis_publisher.cpp) is embedded
  with its `orderbooks_`/`trades_` maps as functions from symbol, its
  `running_` flag, and the `RedisPublisher` `connected_` flag; transport
  results that depend on the network are supplied as explicit outcome values.
-/

namespace Arthachitra

/-- Association list standing for `std::map<double,int>`: strictly ascending
price keys, one entry per present price level. -/
abbrev PriceMap := List (Rat × Int)

/-- Lookup of a price key, as `map.find(price)` on `std::map`. -/
def mapFind (p : Rat) : PriceMap → Option Int
  | [] => none
  | (k, v) :: rest => if k = p then some v else mapFind p rest

/-- Insert-or-assign at a price key, as `map[price] = quantity` on `std::map`:
keeps the keys strictly ascending. -/
def mapInsert (p : Rat) (q : Int) : PriceMap → PriceMap
  | [] => [(p, q)]
  | (k, v) :: rest =>
    if p < k then (p, q) :: (k, v) :: rest
    else if p = k then (p, q) :: rest
    else (k, v) :: mapInsert p q rest

/-- Erase a price key, as `map.erase(price)` on `std::map` (removes the entry
with that key when present; a no-op otherwise). -/
def mapErase (p : Rat) : PriceMap → PriceMap
  | [] => []
  | (k, v) :: rest => if k = p then rest else (k, v) :: mapErase p rest

/-- The `std::map` representation invariant: keys strictly ascending. -/
def sortedKeys (m : PriceMap) : Prop := m.Pairwise (fun a b => a.1 < b.1)

instance (m : PriceMap) : Decidable (sortedKeys m) := by
  unfold sortedKeys; infer_instance

/-- `OrderBook` of src/tick_engine/include/order_book.h: per-symbol bid and ask
maps plus `last_updated_`. -/
structure OrderBook where
  symbol : String
  bids : PriceMap
  asks : PriceMap
  lastUpdated : Int
deriving Repr, DecidableEq

/-- `OrderBook::OrderBook(symbol)`: empty book. -/
def OrderBook.mk0 (symbol : String) : OrderBook :=
  { symbol := symbol, bids := [], asks := [], lastUpdated := 0 }

/-- `OrderBook::updateBid` (src/tick_engine/src/order_book.cpp lines 9-19):
quantity > 0 sets/replaces the level, otherwise erases it; `last_updated_` is
set to the current time unconditionally. -/
def updateBid (b : OrderBook) (price : Rat) (quantity : Int) (now : Int) : OrderBook :=
  { b with
    bids := if quantity > 0 then mapInsert price quantity b.bids else mapErase price b.bids
    lastUpdated := now }

/-- `OrderBook::updateAsk` (order_book.cpp lines 21-31): same on the ask side. -/
def updateAsk (b : OrderBook) (price : Rat) (quantity : Int) (now : Int) : OrderBook :=
  { b with
    asks := if quantity > 0 then mapInsert price quantity b.asks else mapErase price b.asks
    lastUpdated := now }

/-- `OrderBook::getBestBid` (order_book.cpp lines 33-37): `bids_.rbegin()->first`
(last key of the ascending map) when non-empty, the sentinel `0.0` when empty. -/
def getBestBid (b : OrderBook) : Rat :=
  match b.bids.getLast? with
  | none => 0
  | some kv => kv.1

/-- `OrderBook::getBestAsk` (order_book.cpp lines 39-43): `asks_.begin()->first`
(first key) when non-empty, the sentinel `0.0` when empty. -/
def getBestAsk (b : OrderBook) : Rat :=
  match b.asks.head? with
  | none => 0
  | some kv => kv.1

/-- `OrderBook::getSpread` (order_book.cpp lines 45-49): `ask - bid` when both
returned prices are positive, else `0.0`. -/
def getSpread (b : OrderBook) : Rat :=
  let bid := getBestBid b
  let ask := getBestAsk b
  if bid > 0 ∧ ask > 0 then ask - bid else 0

/-- `OrderBook::getBids(depth)` (order_book.cpp lines 51-61): up to `depth`
levels from the highest bid downwards (reverse iteration of the map). -/
def getBids (b : OrderBook) (depth : Nat) : List (Rat × Int) :=
  b.bids.reverse.take depth

/-- `OrderBook::getAsks(depth)` (order_book.cpp lines 63-73): up to `depth`
levels from the lowest ask upwards (forward iteration of the map). -/
def getAsks (b : OrderBook) (depth : Nat) : List (Rat × Int) :=
  b.asks.take depth

/-- The value `OrderBook::toJson(depth)` builds (order_book.cpp lines 75-97):
symbol, timestamp, depth-bounded best-first sides, spread. -/
structure Snapshot where
  symbol : String
  timestamp : Int
  bids : List (Rat × Int)
  asks : List (Rat × Int)
  spread : Rat
deriving Repr, DecidableEq

/-- `OrderBook::toJson(depth)` evaluated against a single book state (the view
the spec describes: every field reads the same state). -/
def toJson (b : OrderBook) (depth : Nat) : Snapshot :=
  { symbol := b.symbol
    timestamp := b.lastUpdated
    bids := getBids b depth
    asks := getAsks b depth
    spread := getSpread b }

/-- `OrderBook::toJson(depth)` as the code executes it: `getBids`, `getAsks`,
and inside `getSpread` `getBestBid` and `getBestAsk` each acquire `mutex_`
separately (four distinct critical sections), so each may observe a different
book state when updates interleave. `s0` is the state whose unguarded
`symbol_`/`last_updated_` reads are taken, `s1..s4` the states at the four
lock acquisitions in program order. -/
def toJsonInterleaved (s0 s1 s2 s3 s4 : OrderBook) (depth : Nat) : Snapshot :=
  { symbol := s0.symbol
    timestamp := s0.lastUpdated
    bids := getBids s1 depth
    asks := getAsks s2 depth
    spread :=
      let bid := getBestBid s3
      let ask := getBestAsk s4
      if bid > 0 ∧ ask > 0 then ask - bid else 0 }

/-- The spread a snapshot's own `bids`/`asks` fields determine, by the code's
spread rule applied to the best (first) level of each published side. -/
def spreadOf (bids asks : List (Rat × Int)) : Rat :=
  let bid := match bids.head? with | none => 0 | some kv => kv.1
  let ask := match asks.head? with | none => 0 | some kv => kv.1
  if bid > 0 ∧ ask > 0 then ask - bid else 0

/-- Cross-field consistency of one snapshot: its `spread` field agrees with the
spread its own `bids`/`asks` fields determine. -/
def snapshotConsistent (s : Snapshot) : Prop :=
  s.spread = spreadOf s.bids s.asks

instance (s : Snapshot) : Decidable (snapshotConsistent s) := by
  unfold snapshotConsistent; infer_instance

/-- Well-formed book: both sides satisfy the `std::map` invariant. -/
def WF (b : OrderBook) : Prop := sortedKeys b.bids ∧ sortedKeys b.asks

instance (b : OrderBook) : Decidable (WF b) := by
  unfold WF; infer_instance

/-- The two book sides; `updateBid`/`updateAsk` are selected by side. -/
inductive BookSide where
  | bid : BookSide
  | ask : BookSide
deriving Repr, DecidableEq

/-- Dispatch one update to `OrderBook::updateBid` or `OrderBook::updateAsk`. -/
def updateSide (b : OrderBook) (s : BookSide) (price : Rat) (quantity : Int) (now : Int) :
    OrderBook :=
  match s with
  | .bid => updateBid b price quantity now
  | .ask => updateAsk b price quantity now

/-- The stored quantity at a price on a side (`none` when the level is absent). -/
def levelAt (b : OrderBook) (s : BookSide) (price : Rat) : Option Int :=
  match s with
  | .bid => mapFind price b.bids
  | .ask => mapFind price b.asks

/-- Apply a sequence of updates, all on one side at one price; each operation
carries its quantity and the clock value at its critical section. -/
def applyOpsAt (b : OrderBook) (s : BookSide) (price : Rat) : List (Int × Int) → OrderBook
  | [] => b
  | (q, t) :: rest => applyOpsAt (updateSide b s price q t) s price rest

/-! ### TickHandler / RedisPublisher embedding (include/tick_handler.h,
src/redis_publisher.cpp) -/

/-- `Side` of tick_handler.h (`BUY`/`SELL`). -/
inductive TradeSide where
  | buy : TradeSide
  | sell : TradeSide
deriving Repr, DecidableEq

/-- `Action` of tick_handler.h (`ADD`/`UPDATE`/`DELETE`). -/
inductive THAction where
  | add : THAction
  | update : THAction
  | delete : THAction
deriving Repr, DecidableEq

/-- The `struct OrderBook` of tick_handler.h (distinct from the `OrderBook`
class of order_book.h): bare bid/ask maps, no timestamp. -/
structure THBook where
  bids : PriceMap
  asks : PriceMap
deriving Repr, DecidableEq

/-- Default-constructed `struct OrderBook` (what `orderbooks_[symbol]` creates
on first use). -/
def THBook.empty : THBook := { bids := [], asks := [] }

/-- `OrderBookUpdate` of tick_handler.h. -/
structure OrderBookUpdate where
  symbol : String
  price : Rat
  quantity : Int
  side : TradeSide
  action : THAction
  timestamp : Int
deriving Repr, DecidableEq

/-- `Trade` of tick_handler.h. -/
structure Trade where
  symbol : String
  price : Rat
  quantity : Int
  side : TradeSide
  timestamp : Int
deriving Repr, DecidableEq

/-- The book mutation inside `TickHandler::processOrderBookUpdate`
(redis_publisher.cpp lines 271-283): ADD/UPDATE assign `map[price] = quantity`,
DELETE erases, on the side the update names. -/
def applyBookUpdate (ob : THBook) (u : OrderBookUpdate) : THBook :=
  match u.side with
  | .buy =>
    match u.action with
    | .add => { ob with bids := mapInsert u.price u.quantity ob.bids }
    | .update => { ob with bids := mapInsert u.price u.quantity ob.bids }
    | .delete => { ob with bids := mapErase u.price ob.bids }
  | .sell =>
    match u.action with
    | .add => { ob with asks := mapInsert u.price u.quantity ob.asks }
    | .update => { ob with asks := mapInsert u.price u.quantity ob.asks }
    | .delete => { ob with asks := mapErase u.price ob.asks }

/-- The buffer mutation inside `TickHandler::processTrade` (redis_publisher.cpp
lines 292-297): append the trade, then if the buffer exceeds 1000 entries erase
its first (oldest) element. -/
def processTradeBuffer (buf : List Trade) (t : Trade) : List Trade :=
  let b := buf ++ [t]
  if b.length > 1000 then b.drop 1 else b

/-- Outcome of one `redisCommand` call, as distinguished by
`RedisPublisher::publish` (redis_publisher.cpp lines 70-97): a null reply
(connection lost), an error reply, or success. -/
inductive TransportOutcome where
  | lost : TransportOutcome
  | failed : TransportOutcome
  | ok : TransportOutcome
deriving Repr, DecidableEq

/-- `RedisPublisher::publish` (redis_publisher.cpp lines 63-103): when not
connected it fails immediately; when connected, a null reply clears
`connected_` and fails, an error reply fails, success succeeds. Returns
(new `connected_` flag, success). -/
def publish (connected : Bool) (out : TransportOutcome) : Bool × Bool :=
  if connected then
    match out with
    | .lost => (false, false)
    | .failed => (true, false)
    | .ok => (true, true)
  else (false, false)

/-- The mutable state of a `TickHandler` together with its `RedisPublisher`:
`running_`, the number of ingestion-loop threads ever spawned, the
`orderbooks_` and `trades_` maps (default-empty per symbol, as
`unordered_map::operator[]` default-constructs), and the publisher's
`connected_` flag. -/
structure TickHandlerState where
  running : Bool
  loopsSpawned : Nat
  orderbooks : String → THBook
  trades : String → List Trade
  connected : Bool

/-- `TickHandler::start` (redis_publisher.cpp lines 248-254): early-return when
already running, else set `running_` and spawn one ingestion-loop thread. -/
def start (st : TickHandlerState) : TickHandlerState :=
  if st.running then st
  else { st with running := true, loopsSpawned := st.loopsSpawned + 1 }

/-- `TickHandler::stop` (redis_publisher.cpp lines 256-264): early-return when
not running, else clear `running_` and join the loop thread. -/
def stop (st : TickHandlerState) : TickHandlerState :=
  if st.running then { st with running := false } else st

/-- `TickHandler::processOrderBookUpdate` (redis_publisher.cpp lines 266-287):
mutate the symbol's book, then publish the updated book; the publish result is
ignored by the caller but returned here for observation. `out` is this call's
transport outcome. -/
def processOrderBookUpdate (st : TickHandlerState) (symbol : String)
    (u : OrderBookUpdate) (out : TransportOutcome) : TickHandlerState × Bool :=
  let ob := applyBookUpdate (st.orderbooks symbol) u
  let pub := publish st.connected out
  ({ st with
      orderbooks := fun s => if s = symbol then ob else st.orderbooks s
      connected := pub.1 },
   pub.2)

/-- `TickHandler::processTrade` (redis_publisher.cpp lines 289-301): append to
the symbol's bounded trade buffer, then publish the trade. -/
def processTrade (st : TickHandlerState) (symbol : String) (t : Trade)
    (out : TransportOutcome) : TickHandlerState × Bool :=
  let pub := publish st.connected out
  ({ st with
      trades := fun s =>
        if s = symbol then processTradeBuffer (st.trades symbol) t else st.trades s
      connected := pub.1 },
   pub.2)

/-- The ingestion loop's effect on the handler state for a list of update
events, each with its transport outcome (`TickHandler::tickLoop` calls
`processOrderBookUpdate` once per event and always proceeds to the next). -/
def runUpdates (st : TickHandlerState) :
    List (String × OrderBookUpdate × TransportOutcome) → TickHandlerState
  | [] => st
  | (sym, u, out) :: rest => runUpdates (processOrderBookUpdate st sym u out).1 rest

/-- The pure book-registry effect of the same events: no transport involved. -/
def booksAfter (books : String → THBook) :
    List (String × OrderBookUpdate) → (String → THBook)
  | [] => books
  | (sym, u) :: rest =>
    booksAfter (fun s => if s = sym then applyBookUpdate (books sym) u else books s) rest

/-- The trade-map effect of one `processTrade` call. -/
def tradeStep (trades : String → List Trade) (symbol : String) (t : Trade) :
    String → List Trade :=
  fun s => if s = symbol then processTradeBuffer (trades symbol) t else trades s

/-- The trade-map effect of a sequence of `processTrade` calls. -/
def tradesAfter (trades : String → List Trade) :
    List (String × Trade) → (String → List Trade)
  | [] => trades
  | (sym, t) :: rest => tradesAfter (tradeStep trades sym t) rest

/-- One level as serialized by `TickHandler::publishOrderBook`
(`{"price":...,"size":...}`). -/
structure WireLevel where
  price : Rat
  size : Int
deriving Repr, DecidableEq

/-- The orderbook message `TickHandler::publishOrderBook` sends on channel
`"orderbook:" + symbol` (redis_publisher.cpp lines 339-362): exactly the
fields `type`, `symbol`, `bids`, `asks`. -/
structure OrderBookMessage where
  type : String
  symbol : String
  bids : List WireLevel
  asks : List WireLevel
deriving Repr, DecidableEq

/-- `TickHandler::publishOrderBook` (redis_publisher.cpp lines 339-362) builds
the wire message by iterating the FULL bid map and the FULL ask map in
ascending key order (`std::map` forward iteration); there is no depth bound
and no spread or timestamp field. -/
def buildOrderBookMessage (symbol : String) (ob : THBook) : OrderBookMessage :=
  { type := "orderbook"
    symbol := symbol
    bids := ob.bids.map (fun kv => { price := kv.1, size := kv.2 })
    asks := ob.asks.map (fun kv => { price := kv.1, size := kv.2 }) }

/-- The channel `TickHandler::publishOrderBook` publishes on. -/
def orderBookChannel (symbol : String) : String := "orderbook:" ++ symbol

/-! ### Heartbeat embedding (RedisPublisher::startHeartbeat,
redis_publisher.cpp lines 208-225) -/

/-- The environment-chosen outcomes of one heartbeat iteration: whether
`ping()` succeeds and, if it fails, whether the subsequent `connect()`
succeeds. -/
structure HeartbeatOutcome where
  pingOk : Bool
  reconnectOk : Bool
deriving Repr, DecidableEq

/-- One body of the `while (connected_)` heartbeat loop entered with
`connected_ = true`: a successful ping leaves `connected_` set; a failed ping
clears it, then the single reconnect attempt sets it iff `connect()`
succeeded. Returns the `connected_` flag at the end of the body. -/
def heartbeatIter (it : HeartbeatOutcome) : Bool :=
  if it.pingOk then true else it.reconnectOk

/-- Whether the heartbeat task is still looping after the listed iteration
outcomes, starting from `connected_ = connected`: `false` means the
`while (connected_)` condition was observed false and the task returned, so
later outcomes are never consumed. -/
def heartbeatAlive (connected : Bool) : List HeartbeatOutcome → Bool
  | [] => connected
  | it :: rest => if connected then heartbeatAlive (heartbeatIter it) rest else false

/-- How many reconnect (`connect()`) attempts the heartbeat makes over the
listed outcomes. -/
def heartbeatReconnects (connected : Bool) : List HeartbeatOutcome → Nat
  | [] => 0
  | it :: rest =>
    if connected then
      (if it.pingOk then 0 else 1) + heartbeatReconnects (heartbeatIter it) rest
    else 0

/-! ### Concrete states used by counterexamples and witnesses -/

/-- Empty book for symbol "TEST". -/
def bEmpty : OrderBook := OrderBook.mk0 "TEST"

/-- Book holding the single bid level price 0, quantity 5. -/
def bZero : OrderBook := updateBid bEmpty 0 5 1

/-- Book with one bid at price -1 and one ask at price 2: both sides
non-empty. -/
def bC3 : OrderBook := updateAsk (updateBid bEmpty (-1) 5 1) 2 3 2

/-- Book with one bid at price 1 quantity 5, last updated at time 3. -/
def bC9 : OrderBook := updateBid bEmpty 1 5 3

/-- Book state before the interleaved snapshot: one bid (100, 1), no asks. -/
def c4s1 : OrderBook := updateBid (OrderBook.mk0 "NIFTY") 100 1 1

/-- Book state after two concurrent updates ran between the snapshot's lock
acquisitions: the bid removed, one ask (102, 5) added. -/
def c4s2 : OrderBook := updateAsk (updateBid c4s1 100 0 2) 102 5 3

/-- A buy-side UPDATE event at price `p`, quantity 1. -/
def thUpdateAt (p : Rat) : OrderBookUpdate :=
  { symbol := "NIFTY", price := p, quantity := 1, side := .buy, action := .update,
    timestamp := 0 }

/-- TickHandler book reached by 11 buy-side updates at prices 1..11. -/
def thBook11 : THBook :=
  [(1 : Rat), 2, 3, 4, 5, 6, 7, 8, 9, 10, 11].foldl
    (fun ob p => applyBookUpdate ob (thUpdateAt p)) THBook.empty

/-- Book with one bid at the positive price 100 and one ask at 102. -/
def bPos : OrderBook := updateAsk (updateBid bEmpty 100 1 1) 102 5 2

/-- A small well-formed TickHandler book. -/
def thBookSmall : THBook := { bids := [(1, 2), (3, 4)], asks := [(5, 6)] }

/-- A sample trade for witnesses. -/
def sampleTrade : Trade :=
  { symbol := "NIFTY", price := 100, quantity := 10, side := .buy, timestamp := 1 }

/-- A sample tick-handler state with the transport disconnected. -/
def sampleDisconnected : TickHandlerState :=
  { running := true, loopsSpawned := 1, orderbooks := fun _ => THBook.empty,
    trades := fun _ => [], connected := false }

/-! ### Lemmas about the `std::map` embedding -/

theorem mapFind_mapInsert_self (p : Rat) (q : Int) (m : PriceMap) :
    mapFind p (mapInsert p q m) = some q := by
  induction m with
  | nil => simp [mapInsert, mapFind]
  | cons kv rest ih =>
    by_cases h1 : p < kv.1
    · simp [mapInsert, h1, mapFind]
    · by_cases h2 : p = kv.1
      · simp [mapInsert, h1, h2, mapFind]
      · have hne : kv.1 ≠ p := fun h => h2 h.symm
        simp [mapInsert, h1, h2, mapFind, hne, ih]

theorem mapFind_none_of_forall_ne (p : Rat) (m : PriceMap)
    (h : ∀ x ∈ m, x.1 ≠ p) : mapFind p m = none := by
  induction m with
  | nil => rfl
  | cons kv rest ih =>
    have hk : kv.1 ≠ p := h kv (List.mem_cons_self kv rest)
    simp only [mapFind, hk, if_false]
    exact ih (fun x hx => h x (List.mem_cons_of_mem kv hx))

theorem mapFind_mapErase_self (p : Rat) (m : PriceMap) (hs : sortedKeys m) :
    mapFind p (mapErase p m) = none := by
  induction m with
  | nil => rfl
  | cons kv rest ih =>
    rcases List.pairwise_cons.mp hs with ⟨hhead, htail⟩
    by_cases h : kv.1 = p
    · simp only [mapErase, h, if_true]
      exact mapFind_none_of_forall_ne p rest
        (fun x hx => ne_of_gt (h ▸ hhead x hx))
    · simp only [mapErase, h, if_false, mapFind]
      exact ih htail

theorem mapErase_sublist (p : Rat) (m : PriceMap) : (mapErase p m).Sublist m := by
  induction m with
  | nil => simp [mapErase]
  | cons kv rest ih =>
    by_cases h : kv.1 = p
    · simp only [mapErase, h, if_true]
      exact (List.Sublist.refl rest).cons kv
    · simp only [mapErase, h, if_false]
      exact List.Sublist.cons₂ kv ih

theorem sortedKeys_mapErase (p : Rat) (m : PriceMap) (hs : sortedKeys m) :
    sortedKeys (mapErase p m) :=
  hs.sublist (mapErase_sublist p m)

theorem mem_mapInsert (p : Rat) (q : Int) (m : PriceMap) (x : Rat × Int)
    (hx : x ∈ mapInsert p q m) : x.1 = p ∨ x ∈ m := by
  induction m with
  | nil =>
    simp only [mapInsert, List.mem_singleton] at hx
    exact Or.inl (by rw [hx])
  | cons kv rest ih =>
    simp only [mapInsert] at hx
    by_cases h1 : p < kv.1
    · rw [if_pos h1] at hx
      rcases List.mem_cons.mp hx with h | h
      · exact Or.inl (by rw [h])
      · exact Or.inr h
    · rw [if_neg h1] at hx
      by_cases h2 : p = kv.1
      · rw [if_pos h2] at hx
        rcases List.mem_cons.mp hx with h | h
        · exact Or.inl (by rw [h])
        · exact Or.inr (List.mem_cons_of_mem _ h)
      · rw [if_neg h2] at hx
        rcases List.mem_cons.mp hx with h | h
        · exact Or.inr (by rw [h]; exact List.mem_cons_self _ _)
        · rcases ih h with h' | h'
          · exact Or.inl h'
          · exact Or.inr (List.mem_cons_of_mem _ h')

theorem sortedKeys_mapInsert (p : Rat) (q : Int) (m : PriceMap)
    (hs : sortedKeys m) : sortedKeys (mapInsert p q m) := by
  induction m with
  | nil => simp [mapInsert, sortedKeys]
  | cons kv rest ih =>
    rcases List.pairwise_cons.mp hs with ⟨hhead, htail⟩
    simp only [mapInsert]
    by_cases h1 : p < kv.1
    · rw [if_pos h1]
      refine List.pairwise_cons.mpr ⟨?_, hs⟩
      intro x hx
      rcases List.mem_cons.mp hx with h | h
      · rw [h]; exact h1
      · exact lt_trans h1 (hhead x h)
    · rw [if_neg h1]
      by_cases h2 : p = kv.1
      · rw [if_pos h2]
        refine List.pairwise_cons.mpr ⟨?_, htail⟩
        intro x hx
        have := hhead x hx
        rw [h2]
        exact this
      · rw [if_neg h2]
        refine List.pairwise_cons.mpr ⟨?_, ih htail⟩
        intro x hx
        rcases mem_mapInsert p q rest x hx with h | h
        · rw [h]
          exact lt_of_le_of_ne (not_lt.mp h1) (fun h' => h2 h'.symm)
        · exact hhead x h

theorem mapErase_of_find_none (p : Rat) (m : PriceMap)
    (h : mapFind p m = none) : mapErase p m = m := by
  induction m with
  | nil => rfl
  | cons kv rest ih =>
    by_cases hk : kv.1 = p
    · simp [mapFind, hk] at h
    · simp only [mapFind, hk, if_false] at h
      simp [mapErase, hk, ih h]

theorem WF_updateBid (b : OrderBook) (p : Rat) (q : Int) (t : Int) (h : WF b) :
    WF (updateBid b p q t) := by
  refine ⟨?_, h.2⟩
  by_cases hq : q > 0
  · simpa [updateBid, hq] using sortedKeys_mapInsert p q b.bids h.1
  · simpa [updateBid, hq] using sortedKeys_mapErase p b.bids h.1

theorem WF_updateAsk (b : OrderBook) (p : Rat) (q : Int) (t : Int) (h : WF b) :
    WF (updateAsk b p q t) := by
  refine ⟨h.1, ?_⟩
  by_cases hq : q > 0
  · simpa [updateAsk, hq] using sortedKeys_mapInsert p q b.asks h.2
  · simpa [updateAsk, hq] using sortedKeys_mapErase p b.asks h.2

theorem WF_updateSide (b : OrderBook) (s : BookSide) (p : Rat) (q t : Int) (h : WF b) :
    WF (updateSide b s p q t) := by
  cases s
  · exact WF_updateBid b p q t h
  · exact WF_updateAsk b p q t h

theorem levelAt_updateSide_self (b : OrderBook) (s : BookSide) (p : Rat) (q t : Int)
    (hwf : WF b) :
    levelAt (updateSide b s p q t) s p = if q > 0 then some q else none := by
  cases s
  · by_cases hq : q > 0
    · simp [updateSide, updateBid, levelAt, hq, mapFind_mapInsert_self]
    · simp [updateSide, updateBid, levelAt, hq, mapFind_mapErase_self p b.bids hwf.1]
  · by_cases hq : q > 0
    · simp [updateSide, updateAsk, levelAt, hq, mapFind_mapInsert_self]
    · simp [updateSide, updateAsk, levelAt, hq, mapFind_mapErase_self p b.asks hwf.2]

/-! ### Best-price lemmas (sorted map: first key is the minimum, last the maximum) -/

theorem getLast?_key_max (m : PriceMap) (hs : sortedKeys m) (y : Rat × Int)
    (hy : m.getLast? = some y) : ∀ x ∈ m, x.1 ≤ y.1 := by
  induction m with
  | nil => simp at hy
  | cons kv rest ih =>
    rcases List.pairwise_cons.mp hs with ⟨hhead, htail⟩
    intro x hx
    cases rest with
    | nil =>
      simp only [List.getLast?_singleton, Option.some.injEq] at hy
      rcases List.mem_singleton.mp hx with h
      rw [h, hy]
    | cons r rs =>
      rw [List.getLast?_cons_cons] at hy
      have hylast : ∀ x ∈ r :: rs, x.1 ≤ y.1 := ih htail hy
      rcases List.mem_cons.mp hx with h | h
      · rw [h]
        exact le_of_lt (lt_of_lt_of_le (hhead r (List.mem_cons_self r rs))
          (hylast r (List.mem_cons_self r rs)))
      · exact hylast x h

theorem head?_key_min (m : PriceMap) (hs : sortedKeys m) (y : Rat × Int)
    (hy : m.head? = some y) : ∀ x ∈ m, y.1 ≤ x.1 := by
  cases m with
  | nil => simp at hy
  | cons kv rest =>
    rcases List.pairwise_cons.mp hs with ⟨hhead, _⟩
    simp only [List.head?_cons, Option.some.injEq] at hy
    intro x hx
    rcases List.mem_cons.mp hx with h | h
    · rw [h, hy]
    · rw [← hy]
      exact le_of_lt (hhead x h)

theorem getLast?_mem_of_some {α : Type} (l : List α) (y : α) (hy : l.getLast? = some y) :
    y ∈ l := by
  induction l with
  | nil => simp at hy
  | cons a rest ih =>
    cases rest with
    | nil =>
      simp only [List.getLast?_singleton, Option.some.injEq] at hy
      rw [hy]; exact List.mem_singleton_self y
    | cons r rs =>
      rw [List.getLast?_cons_cons] at hy
      exact List.mem_cons_of_mem a (ih hy)

/-! ### Claim C1 -/

/-- C1: for every side, every well-formed initial book, and every non-empty
sequence of updates all at one price on that side (quantity ≤ 0 being a
delete), the final level at that price is the last operation's quantity when
that quantity is positive, and absent when it is ≤ 0. -/
theorem C1_last_write_wins (b : OrderBook) (s : BookSide) (price : Rat)
    (ops : List (Int × Int)) (q t : Int) (hwf : WF b)
    (hlast : ops.getLast? = some (q, t)) :
    levelAt (applyOpsAt b s price ops) s price = if q > 0 then some q else none := by
  induction ops generalizing b with
  | nil => simp at hlast
  | cons op rest ih =>
    cases rest with
    | nil =>
      simp only [List.getLast?_singleton, Option.some.injEq] at hlast
      obtain rfl : op = (q, t) := hlast
      simp only [applyOpsAt]
      exact levelAt_updateSide_self b s price q t hwf
    | cons op2 rest2 =>
      rw [List.getLast?_cons_cons] at hlast
      simp only [applyOpsAt]
      exact ih (updateSide b s price op.1 op.2)
        (WF_updateSide b s price op.1 op.2 hwf) hlast

/-- Witness for C1 at a concrete input: three updates at bid price 100 with
quantities 5, 0 (delete), 7; the final level is 7. -/
theorem C1_last_write_wins_witness :
    WF bEmpty ∧
    ([((5 : Int), (1 : Int)), (0, 2), (7, 3)].getLast? = some (7, 3)) ∧
    levelAt (applyOpsAt bEmpty BookSide.bid 100 [(5, 1), (0, 2), (7, 3)])
        BookSide.bid 100 = (if (7 : Int) > 0 then some 7 else none) :=
  ⟨by decide, by decide,
    C1_last_write_wins bEmpty BookSide.bid 100 [(5, 1), (0, 2), (7, 3)] 7 3
      (by decide) (by decide)⟩

/-! ### Claim C2 -/

/-- C2 counterexample: the empty-bid-side return value of `getBestBid` is the
plain price `0.0`, not a distinguished "none": a book whose only bid level sits
at price 0 (quantity 5) gets exactly the same `getBestBid` result as the empty
book, so the result does not distinguish the empty side. -/
theorem C2_counterexample :
    bZero.bids ≠ [] ∧ mapFind 0 bZero.bids = some 5 ∧
    bEmpty.bids = [] ∧ getBestBid bZero = getBestBid bEmpty := by decide

/-- C2 amended: for a well-formed book, `getBestBid` returns the maximum price
among present bid levels when the bid side is non-empty and the in-band
sentinel `0.0` when it is empty; dually `getBestAsk` returns the minimum ask
price or the sentinel `0.0`. No error is raised either way, but the sentinel
is an ordinary price value, not a distinguished "none". -/
theorem C2_best_prices (b : OrderBook) (hwf : WF b) :
    (b.bids = [] → getBestBid b = 0) ∧
    (b.bids ≠ [] →
      (∃ x ∈ b.bids, x.1 = getBestBid b) ∧ (∀ x ∈ b.bids, x.1 ≤ getBestBid b)) ∧
    (b.asks = [] → getBestAsk b = 0) ∧
    (b.asks ≠ [] →
      (∃ x ∈ b.asks, x.1 = getBestAsk b) ∧ (∀ x ∈ b.asks, getBestAsk b ≤ x.1)) := by
  refine ⟨?_, ?_, ?_, ?_⟩
  · intro h; simp [getBestBid, h]
  · intro h
    have hy : b.bids.getLast? = some (b.bids.getLast h) :=
      List.getLast?_eq_getLast_of_ne_nil h
    have hbb : getBestBid b = (b.bids.getLast h).1 := by
      simp [getBestBid, hy]
    refine ⟨⟨b.bids.getLast h, List.getLast_mem h, hbb.symm⟩, ?_⟩
    intro x hx
    rw [hbb]
    exact getLast?_key_max b.bids hwf.1 (b.bids.getLast h) hy x hx
  · intro h; simp [getBestAsk, h]
  · intro h
    have hz : b.asks.head? = some (b.asks.head h) := List.head?_eq_head h
    have hba : getBestAsk b = (b.asks.head h).1 := by
      simp [getBestAsk, hz]
    refine ⟨⟨b.asks.head h, List.head_mem h, hba.symm⟩, ?_⟩
    intro x hx
    rw [hba]
    exact head?_key_min b.asks hwf.2 (b.asks.head h) hz x hx

/-- Witness for C2 (amended) at the concrete book `bZero`. -/
theorem C2_best_prices_witness :
    WF bZero ∧
    ((bZero.bids = [] → getBestBid bZero = 0) ∧
     (bZero.bids ≠ [] →
       (∃ x ∈ bZero.bids, x.1 = getBestBid bZero) ∧
       (∀ x ∈ bZero.bids, x.1 ≤ getBestBid bZero)) ∧
     (bZero.asks = [] → getBestAsk bZero = 0) ∧
     (bZero.asks ≠ [] →
       (∃ x ∈ bZero.asks, x.1 = getBestAsk bZero) ∧
       (∀ x ∈ bZero.asks, getBestAsk bZero ≤ x.1))) :=
  ⟨by decide, C2_best_prices bZero (by decide)⟩

/-! ### Claim C3 -/

/-- C3 counterexample: `bC3` has a bid level (price -1) and an ask level
(price 2), so both sides are non-empty and the claim demands spread
`2 - (-1) = 3`; the code's positivity test `bid > 0 && ask > 0` fails on the
non-positive bid price and `getSpread` returns 0. Presence is not what decides
the case — the price value is. -/
theorem C3_counterexample :
    bC3.bids ≠ [] ∧ bC3.asks ≠ [] ∧
    getBestAsk bC3 - getBestBid bC3 = 3 ∧ getSpread bC3 = 0 := by
  have h1 : getBestBid bC3 = -1 := by decide
  have h2 : getBestAsk bC3 = 2 := by decide
  refine ⟨by decide, by decide, ?_, by decide⟩
  rw [h1, h2]
  norm_num

/-- C3 amended: `getSpread` returns `bestAsk - bestBid` exactly when both
returned best prices are positive, else 0; provided every resting level has a
positive price, this coincides with the presence-based rule (difference when
both sides are non-empty, 0 when either side is empty). -/
theorem C3_spread (b : OrderBook)
    (hb : ∀ x ∈ b.bids, 0 < x.1) (ha : ∀ x ∈ b.asks, 0 < x.1) :
    getSpread b =
      if b.bids ≠ [] ∧ b.asks ≠ [] then getBestAsk b - getBestBid b else 0 := by
  by_cases hbe : b.bids = []
  · have h1 : getBestBid b = 0 := by simp [getBestBid, hbe]
    simp [getSpread, h1, hbe]
  · by_cases hae : b.asks = []
    · have h2 : getBestAsk b = 0 := by simp [getBestAsk, hae]
      simp [getSpread, h2, hae]
    · have hy : b.bids.getLast? = some (b.bids.getLast hbe) :=
        List.getLast?_eq_getLast_of_ne_nil hbe
      have h1 : getBestBid b = (b.bids.getLast hbe).1 := by
        simp [getBestBid, hy]
      have h2 : getBestAsk b = (b.asks.head hae).1 := by
        simp [getBestAsk, List.head?_eq_head hae]
      have hy0 : 0 < (b.bids.getLast hbe).1 := hb _ (List.getLast_mem hbe)
      have hz0 : 0 < (b.asks.head hae).1 := ha _ (List.head_mem hae)
      simp only [getSpread, h1, h2, hbe, hae]
      rw [if_pos ⟨hy0, hz0⟩, if_pos ⟨hbe, hae⟩]

/-- Witness for C3 (amended) at the concrete positive-price book `bPos`. -/
theorem C3_spread_witness :
    (∀ x ∈ bPos.bids, 0 < x.1) ∧ (∀ x ∈ bPos.asks, 0 < x.1) ∧
    getSpread bPos =
      (if bPos.bids ≠ [] ∧ bPos.asks ≠ [] then getBestAsk bPos - getBestBid bPos
       else 0) :=
  ⟨by decide, by decide, C3_spread bPos (by decide) (by decide)⟩

/-! ### Claim C9 -/

/-- C9 counterexample: removing the absent price 2 from `bC9` (whose
`lastUpdated` is 3) at clock time 7 leaves both sides' levels unchanged but
refreshes `lastUpdated` to 7 — the code sets `last_updated_` unconditionally,
so the whole book state is NOT unchanged. -/
theorem C9_counterexample :
    mapFind 2 bC9.bids = none ∧ mapFind 2 bC9.asks = none ∧
    (updateBid bC9 2 0 7).bids = bC9.bids ∧
    (updateBid bC9 2 0 7).asks = bC9.asks ∧
    (updateBid bC9 2 0 7).lastUpdated ≠ bC9.lastUpdated := by decide

/-- C9 amended: a remove (quantity ≤ 0) at a price absent from the targeted
side raises no error and leaves the levels of both sides unchanged, but always
sets `lastUpdated` to the current clock value. -/
theorem C9_remove_absent (b : OrderBook) (s : BookSide) (p : Rat) (q now : Int)
    (habs : levelAt b s p = none) (hq : q ≤ 0) :
    (updateSide b s p q now).bids = b.bids ∧
    (updateSide b s p q now).asks = b.asks ∧
    (updateSide b s p q now).lastUpdated = now := by
  have hq' : ¬ q > 0 := not_lt.mpr hq
  cases s
  · refine ⟨?_, rfl, rfl⟩
    simp only [updateSide, updateBid, hq', if_false]
    exact mapErase_of_find_none p b.bids habs
  · refine ⟨rfl, ?_, rfl⟩
    simp only [updateSide, updateAsk, hq', if_false]
    exact mapErase_of_find_none p b.asks habs

/-- Witness for C9 (amended) at the concrete book `bC9`, absent price 2. -/
theorem C9_remove_absent_witness :
    levelAt bC9 BookSide.bid 2 = none ∧ ((0 : Int) ≤ 0) ∧
    ((updateSide bC9 BookSide.bid 2 0 7).bids = bC9.bids ∧
     (updateSide bC9 BookSide.bid 2 0 7).asks = bC9.asks ∧
     (updateSide bC9 BookSide.bid 2 0 7).lastUpdated = 7) :=
  ⟨by decide, by decide, C9_remove_absent bC9 BookSide.bid 2 0 7 (by decide) (by decide)⟩

/-! ### Claim C4 -/

/-- C4: `toJson` is NOT produced under a single lock acquisition — it takes
`mutex_` four separate times — so a torn snapshot is reachable. At the
concrete interleaving where `updateBid(100, 0)` and `updateAsk(102, 5)` run
between the snapshot's bid read and its ask read, the resulting snapshot's
`spread` field (0) contradicts the spread its own `bids`/`asks` fields
determine (2); both pre- and post-update single-state snapshots are
consistent, so no single point-in-time state produces the torn snapshot. -/
theorem C4_torn_snapshot :
    snapshotConsistent (toJson c4s1 10) ∧
    snapshotConsistent (toJson c4s2 10) ∧
    ¬ snapshotConsistent (toJsonInterleaved c4s1 c4s1 c4s2 c4s2 c4s2 10) := by
  refine ⟨by decide, by decide, ?_⟩
  intro hcon
  have hs : (toJsonInterleaved c4s1 c4s1 c4s2 c4s2 c4s2 10).spread = 0 := by decide
  have hb : (toJsonInterleaved c4s1 c4s1 c4s2 c4s2 c4s2 10).bids = [(100, 1)] := by
    decide
  have ha : (toJsonInterleaved c4s1 c4s1 c4s2 c4s2 c4s2 10).asks = [(102, 5)] := by
    decide
  rw [snapshotConsistent, hs, hb, ha] at hcon
  have h2 : spreadOf [(100, 1)] [(102, 5)] = 2 := by norm_num [spreadOf]
  rw [h2] at hcon
  exact absurd hcon (by norm_num)

/-! ### Claim C5 -/

/-- C5 counterexample: a book with 11 bid levels (prices 1..11, reached by 11
updates) yields a published message whose `bids` array has 11 entries — more
than the claimed bound of 10 — and whose first entry is the LOWEST price 1
(ascending, worst-first order), not the highest as best-first descending order
requires. -/
theorem C5_counterexample :
    (buildOrderBookMessage "NIFTY" thBook11).bids.length = 11 ∧
    ((buildOrderBookMessage "NIFTY" thBook11).bids.head?.map WireLevel.price) =
      some 1 ∧
    ((buildOrderBookMessage "NIFTY" thBook11).bids.getLast?.map WireLevel.price) =
      some 11 := by decide

/-- C5 amended: the message `TickHandler::publishOrderBook` publishes carries
exactly the fields type ("orderbook"), symbol, bids, asks — no spread and no
timestamp — with ALL levels of each side (no depth bound) in ascending price
order on both sides. -/
theorem C5_message_all_levels_ascending (sym : String) (ob : THBook)
    (hb : sortedKeys ob.bids) (ha : sortedKeys ob.asks) :
    (buildOrderBookMessage sym ob).type = "orderbook" ∧
    (buildOrderBookMessage sym ob).symbol = sym ∧
    (buildOrderBookMessage sym ob).bids.length = ob.bids.length ∧
    (buildOrderBookMessage sym ob).asks.length = ob.asks.length ∧
    ((buildOrderBookMessage sym ob).bids.map WireLevel.price).Pairwise (· < ·) ∧
    ((buildOrderBookMessage sym ob).asks.map WireLevel.price).Pairwise (· < ·) := by
  refine ⟨rfl, rfl, by simp [buildOrderBookMessage], by simp [buildOrderBookMessage],
    ?_, ?_⟩
  · simp only [buildOrderBookMessage, List.map_map]
    rw [List.pairwise_map]
    exact hb
  · simp only [buildOrderBookMessage, List.map_map]
    rw [List.pairwise_map]
    exact ha

/-- Witness for C5 (amended) at the concrete book `thBookSmall`. -/
theorem C5_message_witness :
    sortedKeys thBookSmall.bids ∧ sortedKeys thBookSmall.asks ∧
    ((buildOrderBookMessage "X" thBookSmall).type = "orderbook" ∧
     (buildOrderBookMessage "X" thBookSmall).symbol = "X" ∧
     (buildOrderBookMessage "X" thBookSmall).bids.length = thBookSmall.bids.length ∧
     (buildOrderBookMessage "X" thBookSmall).asks.length = thBookSmall.asks.length ∧
     ((buildOrderBookMessage "X" thBookSmall).bids.map WireLevel.price).Pairwise
        (· < ·) ∧
     ((buildOrderBookMessage "X" thBookSmall).asks.map WireLevel.price).Pairwise
        (· < ·)) :=
  ⟨by decide, by decide,
    C5_message_all_levels_ascending "X" thBookSmall (by decide) (by decide)⟩

/-! ### Claim C6 -/

theorem processTradeBuffer_length_le (buf : List Trade) (t : Trade)
    (h : buf.length ≤ 1000) : (processTradeBuffer buf t).length ≤ 1000 := by
  simp only [processTradeBuffer]
  by_cases hl : (buf ++ [t]).length > 1000
  · rw [if_pos hl]
    simp only [List.length_drop, List.length_append, List.length_singleton]
    omega
  · rw [if_neg hl]
    simp only [List.length_append, List.length_singleton] at hl ⊢
    omega

theorem processTradeBuffer_not_full (buf : List Trade) (t : Trade)
    (h : buf.length < 1000) : processTradeBuffer buf t = buf ++ [t] := by
  simp only [processTradeBuffer]
  have hl : ¬ (buf ++ [t]).length > 1000 := by
    simp only [List.length_append, List.length_singleton]
    omega
  rw [if_neg hl]

theorem processTradeBuffer_full (buf : List Trade) (t : Trade)
    (h : buf.length = 1000) :
    processTradeBuffer buf t = buf.tail ++ [t] := by
  simp only [processTradeBuffer]
  have hl : (buf ++ [t]).length > 1000 := by
    simp only [List.length_append, List.length_singleton]
    omega
  rw [if_pos hl]
  cases buf with
  | nil => simp at h
  | cons a rest => simp

theorem tradesAfter_length_le (trades0 : String → List Trade)
    (events : List (String × Trade)) (hinv : ∀ s, (trades0 s).length ≤ 1000) :
    ∀ s, ((tradesAfter trades0 events) s).length ≤ 1000 := by
  induction events generalizing trades0 with
  | nil => exact hinv
  | cons e rest ih =>
    simp only [tradesAfter]
    apply ih
    intro s
    unfold tradeStep
    by_cases hs : s = e.1
    · simp only [hs, if_true]
      exact processTradeBuffer_length_le _ _ (hinv e.1)
    · simp only [hs, if_false]
      exact hinv s

/-- C6: after any sequence of `processTrade` calls starting from buffers within
capacity, every symbol's buffer holds at most 1000 trades; one call appends to
the named symbol's buffer (preserving insertion order), evicting exactly the
oldest entry when the buffer already holds 1000, and touching no other
symbol's buffer. -/
theorem C6_trade_buffer_bounded_fifo (trades0 : String → List Trade)
    (events : List (String × Trade)) (st : TickHandlerState) (sym : String)
    (t : Trade) (out : TransportOutcome)
    (hinv : ∀ s, (trades0 s).length ≤ 1000) :
    (∀ s, ((tradesAfter trades0 events) s).length ≤ 1000) ∧
    ((processTrade st sym t out).1.trades = tradeStep st.trades sym t) ∧
    ((st.trades sym).length < 1000 →
      tradeStep st.trades sym t sym = st.trades sym ++ [t]) ∧
    ((st.trades sym).length = 1000 →
      tradeStep st.trades sym t sym = (st.trades sym).tail ++ [t]) ∧
    (∀ s, s ≠ sym → tradeStep st.trades sym t s = st.trades s) := by
  refine ⟨tradesAfter_length_le trades0 events hinv, rfl, ?_, ?_, ?_⟩
  · intro h
    simp only [tradeStep, if_pos rfl]
    exact processTradeBuffer_not_full _ _ h
  · intro h
    simp only [tradeStep, if_pos rfl]
    exact processTradeBuffer_full _ _ h
  · intro s hs
    simp [tradeStep, hs]

/-- Witness for C6 at concrete inputs: empty initial buffers, one event. -/
theorem C6_trade_buffer_witness :
    (∀ _s : String, (([] : List Trade)).length ≤ 1000) ∧
    ((∀ s, ((tradesAfter (fun _ => []) [("NIFTY", sampleTrade)]) s).length ≤ 1000) ∧
     ((processTrade sampleDisconnected "NIFTY" sampleTrade TransportOutcome.ok).1.trades =
        tradeStep sampleDisconnected.trades "NIFTY" sampleTrade) ∧
     ((sampleDisconnected.trades "NIFTY").length < 1000 →
        tradeStep sampleDisconnected.trades "NIFTY" sampleTrade "NIFTY" =
          sampleDisconnected.trades "NIFTY" ++ [sampleTrade]) ∧
     ((sampleDisconnected.trades "NIFTY").length = 1000 →
        tradeStep sampleDisconnected.trades "NIFTY" sampleTrade "NIFTY" =
          (sampleDisconnected.trades "NIFTY").tail ++ [sampleTrade]) ∧
     (∀ s, s ≠ "NIFTY" →
        tradeStep sampleDisconnected.trades "NIFTY" sampleTrade s =
          sampleDisconnected.trades s)) :=
  ⟨fun _ => by simp,
    C6_trade_buffer_bounded_fifo (fun _ => []) [("NIFTY", sampleTrade)]
      sampleDisconnected "NIFTY" sampleTrade TransportOutcome.ok
      (fun _ => by simp)⟩

/-! ### Claim C7 -/

theorem runUpdates_books (st : TickHandlerState)
    (events : List (String × OrderBookUpdate × TransportOutcome)) :
    (runUpdates st events).orderbooks =
      booksAfter st.orderbooks (events.map (fun e => (e.1, e.2.1))) := by
  induction events generalizing st with
  | nil => rfl
  | cons e rest ih =>
    simp only [runUpdates, List.map_cons, booksAfter]
    exact ih _

/-- C7: a `processOrderBookUpdate` while the transport is disconnected still
applies the book mutation exactly (the registry after any event sequence is
the pure fold of the mutations, independent of connection state and transport
outcomes), its publish returns failure rather than raising, and the loop's
state after the event is well-defined so processing continues. -/
theorem C7_publish_failure_nonfatal (st : TickHandlerState) (sym : String)
    (u : OrderBookUpdate) (out : TransportOutcome)
    (events : List (String × OrderBookUpdate × TransportOutcome))
    (hdisc : st.connected = false) :
    (processOrderBookUpdate st sym u out).2 = false ∧
    (processOrderBookUpdate st sym u out).1.orderbooks sym =
      applyBookUpdate (st.orderbooks sym) u ∧
    (runUpdates st events).orderbooks =
      booksAfter st.orderbooks (events.map (fun e => (e.1, e.2.1))) := by
  refine ⟨?_, by simp [processOrderBookUpdate], runUpdates_books st events⟩
  simp [processOrderBookUpdate, publish, hdisc]

/-- Witness for C7 at the concrete disconnected state. -/
theorem C7_publish_failure_witness :
    sampleDisconnected.connected = false ∧
    ((processOrderBookUpdate sampleDisconnected "NIFTY" (thUpdateAt 100)
        TransportOutcome.ok).2 = false ∧
     (processOrderBookUpdate sampleDisconnected "NIFTY" (thUpdateAt 100)
        TransportOutcome.ok).1.orderbooks "NIFTY" =
       applyBookUpdate (sampleDisconnected.orderbooks "NIFTY") (thUpdateAt 100) ∧
     (runUpdates sampleDisconnected
        [("NIFTY", thUpdateAt 100, TransportOutcome.ok)]).orderbooks =
       booksAfter sampleDisconnected.orderbooks
         ([("NIFTY", thUpdateAt 100, TransportOutcome.ok)].map
           (fun e => (e.1, e.2.1)))) :=
  ⟨rfl,
    C7_publish_failure_nonfatal sampleDisconnected "NIFTY" (thUpdateAt 100)
      TransportOutcome.ok [("NIFTY", thUpdateAt 100, TransportOutcome.ok)] rfl⟩

/-! ### Claim C8 -/

/-- C8 counterexample: starting connected, one iteration whose ping fails and
whose reconnect attempt also fails makes exactly one reconnect attempt and
then TERMINATES the heartbeat task (the `while (connected_)` condition is
false), even though the client was never stopped and the next iteration's ping
would have succeeded — the claim that the task always resumes periodic pinging
after a failure is false. -/
theorem C8_counterexample :
    heartbeatAlive true
      [{ pingOk := false, reconnectOk := false },
       { pingOk := true, reconnectOk := true }] = false ∧
    heartbeatReconnects true
      [{ pingOk := false, reconnectOk := false },
       { pingOk := true, reconnectOk := true }] = 1 := by decide

/-- C8 amended: each ping failure triggers exactly one reconnect attempt
(after a fixed 5-second delay); provided every such reconnect attempt
succeeds, the task stays alive and resumes periodic pinging, making exactly
one reconnect attempt per ping failure. When a reconnect attempt fails, the
task terminates (see the counterexample). -/
theorem C8_heartbeat_resumes_when_reconnects_succeed (its : List HeartbeatOutcome)
    (h : ∀ it ∈ its, it.pingOk = false → it.reconnectOk = true) :
    heartbeatAlive true its = true ∧
    heartbeatReconnects true its = its.countP (fun it => !it.pingOk) := by
  induction its with
  | nil => simp [heartbeatAlive, heartbeatReconnects]
  | cons it rest ih =>
    have hit : heartbeatIter it = true := by
      by_cases hp : it.pingOk
      · simp [heartbeatIter, hp]
      · simp only [heartbeatIter, hp, if_false]
        exact h it (List.mem_cons_self _ _) (by simpa using hp)
    have hrest := ih (fun x hx => h x (List.mem_cons_of_mem _ hx))
    constructor
    · simp only [heartbeatAlive, if_pos rfl, hit]
      exact hrest.1
    · simp only [heartbeatReconnects, if_pos rfl, hit, hrest.2, List.countP_cons]
      by_cases hp : it.pingOk
      · simp [hp]
      · simp [hp]
        omega

/-- Witness for C8 (amended): one failed ping whose reconnect succeeds,
followed by a successful ping. -/
theorem C8_heartbeat_witness :
    (∀ it ∈ [({ pingOk := false, reconnectOk := true } : HeartbeatOutcome),
        { pingOk := true, reconnectOk := true }],
      it.pingOk = false → it.reconnectOk = true) ∧
    (heartbeatAlive true
        [({ pingOk := false, reconnectOk := true } : HeartbeatOutcome),
         { pingOk := true, reconnectOk := true }] = true ∧
     heartbeatReconnects true
        [({ pingOk := false, reconnectOk := true } : HeartbeatOutcome),
         { pingOk := true, reconnectOk := true }] =
       ([({ pingOk := false, reconnectOk := true } : HeartbeatOutcome),
         { pingOk := true, reconnectOk := true }].countP (fun it => !it.pingOk))) :=
  ⟨by decide,
    C8_heartbeat_resumes_when_reconnects_succeed
      [{ pingOk := false, reconnectOk := true },
       { pingOk := true, reconnectOk := true }] (by decide)⟩

/-! ### Claim C10 -/

/-- C10: engine lifecycle operations are idempotent at their boundaries:
`start` on a running state is the identity (no state change, no second
ingestion loop spawned — `loopsSpawned` is unchanged since the whole state is
unchanged), `stop` on a non-running state is the identity, and
`start ∘ start = start`, `stop ∘ stop = stop`. -/
theorem C10_lifecycle_idempotent (st : TickHandlerState) :
    start (start st) = start st ∧
    stop (stop st) = stop st ∧
    start { st with running := true } = { st with running := true } ∧
    stop { st with running := false } = { st with running := false } := by
  by_cases h : st.running
  · simp [start, stop, h]
  · simp [start, stop, h]

end Arthachitra
